import Mathlib

deriving instance DecidableEq for Except

set_option maxRecDepth 8000

/-!
Verification of a small two-phase assembler / interpreter (`vm.py`).

The assembler translates line-oriented source text into 32-bit instruction
words `(opcode << 24) | (reg << 16) | operand` with Python integer semantics
(arbitrary-precision, bitwise OR, no masking), and the interpreter executes
such words against a 256-cell memory array.  Every definition below is a
direct translation of the corresponding Python code; Python's built-in
string and integer operations (`str.strip`, `str.split`, `str.splitlines`,
`int`, `f"{n:08X}"`) are modelled for ASCII text with `\n` line endings,
which covers all source programs considered here.
-/

namespace VM

/-- Bitwise AND on integers, as used by Python's `&` (two's complement
semantics for negative operands, matching `Int.land`). -/
instance : AndOp Int := ⟨Int.land⟩

/-- Bitwise OR on integers, as used by Python's `|`. -/
instance : OrOp Int := ⟨Int.lor⟩

/-- Decimal value of a digit character, used by the model of Python `int`. -/
def digitVal (ch : Char) : Option Nat :=
  if '0' ≤ ch ∧ ch ≤ '9' then some (ch.toNat - '0'.toNat) else none

/-- Remaining digits of a Python decimal literal after the first one: plain
digits, with single underscores allowed between digits, folded into an
accumulator. -/
def parseDigitTail : Nat → List Char → Option Nat
  | acc, [] => some acc
  | _, ['_'] => none
  | acc, '_' :: ch :: rest =>
    match digitVal ch with
    | some d => parseDigitTail (acc * 10 + d) rest
    | none => none
  | acc, ch :: rest =>
    match digitVal ch with
    | some d => parseDigitTail (acc * 10 + d) rest
    | none => none

/-- Whitespace stripped from both ends of a character list (Python
`str.strip` restricted to ASCII whitespace). -/
def stripChars (l : List Char) : List Char :=
  ((l.dropWhile Char.isWhitespace).reverse.dropWhile Char.isWhitespace).reverse

/-- Python `line.strip()`. -/
def pyStrip (s : String) : String :=
  ⟨stripChars s.data⟩

/-- Model of Python `int(text)`: strip surrounding whitespace, accept an
optional sign, then a nonempty run of decimal digits (single underscores
allowed between digits); anything else raises `ValueError`. -/
def pyInt? (s : String) : Option Int :=
  let t := stripChars s.data
  let signDigits : Int × List Char :=
    match t with
    | '+' :: rest => (1, rest)
    | '-' :: rest => (-1, rest)
    | _ => (1, t)
  match signDigits.2 with
  | [] => none
  | ch :: rest =>
    match digitVal ch with
    | some d => (parseDigitTail d rest).map fun n => signDigits.1 * (n : Int)
    | none => none

/-- Splitting a character list on runs of whitespace, as Python
`line.split()` with no arguments does: no empty tokens are produced.  The
accumulator holds the (reversed) word currently being read. -/
def wordsAux : List Char → List Char → List (List Char)
  | [], acc => if acc = [] then [] else [acc.reverse]
  | ch :: rest, acc =>
    if ch.isWhitespace then
      if acc = [] then wordsAux rest [] else acc.reverse :: wordsAux rest []
    else wordsAux rest (ch :: acc)

/-- Whitespace-run splitting of a character list. -/
def wordsChars (l : List Char) : List (List Char) :=
  wordsAux l []

/-- Python `line.split()`. -/
def pySplit (s : String) : List String :=
  (wordsChars s.data).map fun w => ⟨w⟩

/-- Helper for `pySplitlines`: a newline closes the current line; text after
the last newline forms a final line only when nonempty. -/
def splitlinesAux : List Char → List Char → List String
  | [], acc => if acc = [] then [] else [⟨acc.reverse⟩]
  | '\n' :: rest, acc => ⟨acc.reverse⟩ :: splitlinesAux rest []
  | ch :: rest, acc => splitlinesAux rest (ch :: acc)

/-- Python `source_code.splitlines()` for `\n`-separated text: split on the
newline character, without a trailing empty line for a trailing newline. -/
def pySplitlines (s : String) : List String :=
  splitlinesAux s.data []

/-- Uppercase hexadecimal digit for a value below 16. -/
def hexDigit (n : Nat) : Char :=
  if n < 10 then Char.ofNat ('0'.toNat + n) else Char.ofNat ('A'.toNat + (n - 10))

/-- Uppercase hexadecimal digits of a natural number, most significant
first. -/
def natHexDigits (n : Nat) : List Char :=
  if _h : n < 16 then [hexDigit n]
  else natHexDigits (n / 16) ++ [hexDigit (n % 16)]
termination_by n
decreasing_by exact Nat.div_lt_self (by omega) (by omega)

/-- Python `f"{encoded:08X}"`: zero-padded 8-wide uppercase hexadecimal,
with a leading minus sign counted inside the field width for negative
values. -/
def pyFormatHex8 (n : Int) : String :=
  if n < 0 then
    ⟨'-' :: (List.replicate (7 - (natHexDigits n.natAbs).length) '0' ++ natHexDigits n.natAbs)⟩
  else
    ⟨List.replicate (8 - (natHexDigits n.toNat).length) '0' ++ natHexDigits n.toNat⟩

/-- Structured form of the `ValueError`s raised during `Assembler.assemble`,
one constructor per `raise` site plus Python's own `int()` failure. -/
inductive AsmError where
  | unknownInstruction (command : String) (lineNo : Nat)
  | argumentCount (command : String) (lineNo : Nat)
  | malformedOperand (token : String)
  | invalidRegister (reg : Int)
  | invalidAddress (address : Int)
  | unhandled (command : String) (lineNo : Nat)
  deriving DecidableEq, Repr

/-- The apostrophe character, as written by Python `repr` and the f-strings
of the source. -/
def sq : String := String.singleton (Char.ofNat 39)

/-- Diagnostic text attached to each assembly-time error, following the
exact f-strings in the source (and CPython's message for `int()` failures,
which quotes the offending token). -/
def AsmError.message : AsmError → String
  | .unknownInstruction command lineNo =>
      "Unknown instruction " ++ sq ++ command ++ sq ++ " on line " ++ toString lineNo
  | .argumentCount command lineNo =>
      command ++ " requires 2 arguments on line " ++ toString lineNo
  | .malformedOperand token =>
      "invalid literal for int() with base 10: " ++ sq ++ token ++ sq
  | .invalidRegister reg =>
      "Invalid register number: " ++ toString reg
  | .invalidAddress address =>
      "Invalid address: " ++ toString address
  | .unhandled command lineNo =>
      "Unhandled instruction " ++ sq ++ command ++ sq ++ " on line " ++ toString lineNo

/-- The source line number carried inside an error's diagnostic, when the
diagnostic has one. -/
def AsmError.lineNo? : AsmError → Option Nat
  | .unknownInstruction _ n => some n
  | .argumentCount _ n => some n
  | .unhandled _ n => some n
  | .malformedOperand _ => none
  | .invalidRegister _ => none
  | .invalidAddress _ => none

/-- An assembly trace record: 1-based line number, trimmed source text and
the 8-hex-digit rendering of the encoded word. -/
structure LogEntry where
  line : Nat
  instruction : String
  binary : String
  deriving DecidableEq, Repr

/-- The opcode table `self.instructions`, as a lookup function. -/
def instructions (command : String) : Option Nat :=
  if command = "LOAD_CONSTANT" then some 0xA4
  else if command = "LOAD_MEMORY" then some 0x90
  else if command = "STORE_TO_MEMORY" then some 0x1D
  else if command = "SHIFT_LEFT" then some 0x4A
  else none

/-- The encoding expression shared by all four instruction branches:
`(opcode << 24) | (reg << 16) | operand` with Python integer semantics
(bitwise OR on arbitrary-precision integers, no masking). -/
def encodeWord (opcode : Nat) (reg operand : Int) : Int :=
  ((opcode : Int) <<< 24) ||| (reg <<< 16) ||| operand

/-- The per-line body of `Assembler.assemble` after the blank/comment skip:
look up the mnemonic, check the argument count, parse the two operands in
order, apply the `STORE_TO_MEMORY`-only range checks, and encode. -/
def assembleParts (lineNo : Nat) (line : String) (parts : List String) :
    Except AsmError (Int × LogEntry) :=
  let command := parts.headD ""
  match instructions command with
  | none => .error (.unknownInstruction command lineNo)
  | some opcode =>
    if command = "LOAD_CONSTANT" then
      match parts with
      | [_, regTok, valueTok] =>
        match pyInt? regTok with
        | none => .error (.malformedOperand regTok)
        | some reg =>
          match pyInt? valueTok with
          | none => .error (.malformedOperand valueTok)
          | some value =>
            let encoded := encodeWord opcode reg value
            .ok (encoded, ⟨lineNo, line, pyFormatHex8 encoded⟩)
      | _ => .error (.argumentCount "LOAD_CONSTANT" lineNo)
    else if command = "STORE_TO_MEMORY" then
      match parts with
      | [_, regTok, addrTok] =>
        match pyInt? regTok with
        | none => .error (.malformedOperand regTok)
        | some reg =>
          match pyInt? addrTok with
          | none => .error (.malformedOperand addrTok)
          | some address =>
            if ¬ (0 ≤ reg ∧ reg < 32) then .error (.invalidRegister reg)
            else if ¬ (0 ≤ address ∧ address < ((1 <<< 24 : Int))) then
              .error (.invalidAddress address)
            else
              let encoded := encodeWord opcode reg address
              .ok (encoded, ⟨lineNo, line, pyFormatHex8 encoded⟩)
      | _ => .error (.argumentCount "STORE_TO_MEMORY" lineNo)
    else if command = "LOAD_MEMORY" then
      match parts with
      | [_, regTok, offsetTok] =>
        match pyInt? regTok with
        | none => .error (.malformedOperand regTok)
        | some reg =>
          match pyInt? offsetTok with
          | none => .error (.malformedOperand offsetTok)
          | some offset =>
            let encoded := encodeWord opcode reg offset
            .ok (encoded, ⟨lineNo, line, pyFormatHex8 encoded⟩)
      | _ => .error (.argumentCount "LOAD_MEMORY" lineNo)
    else if command = "SHIFT_LEFT" then
      match parts with
      | [_, regTok, addrTok] =>
        match pyInt? regTok with
        | none => .error (.malformedOperand regTok)
        | some reg =>
          match pyInt? addrTok with
          | none => .error (.malformedOperand addrTok)
          | some address =>
            let encoded := encodeWord opcode reg address
            .ok (encoded, ⟨lineNo, line, pyFormatHex8 encoded⟩)
      | _ => .error (.argumentCount "SHIFT_LEFT" lineNo)
    else .error (.unhandled command lineNo)

/-- Processing of a single enumerated source line of `Assembler.assemble`:
strip, skip blank lines and `;` comments, then encode the tokens. -/
def assembleLine (lineNo : Nat) (rawLine : String) :
    Except AsmError (Option (Int × LogEntry)) :=
  let line := pyStrip rawLine
  if line.data = [] ∨ line.data.headD ' ' = ';' then .ok none
  else (assembleParts lineNo line (pySplit line)).map some

/-- The enumerated line loop of `Assembler.assemble`: the first failure
aborts the whole assembly, encoded words and log entries accumulate in
source order. -/
def assembleLoop : Nat → List String → Except AsmError (List Int × List LogEntry)
  | _, [] => .ok ([], [])
  | lineNo, line :: rest =>
    match assembleLine lineNo line with
    | .error e => .error e
    | .ok none => assembleLoop (lineNo + 1) rest
    | .ok (some (word, entry)) =>
      match assembleLoop (lineNo + 1) rest with
      | .error e => .error e
      | .ok (words, log) => .ok (word :: words, entry :: log)

/-- `Assembler.assemble`: translate source text into machine words plus the
assembly log, enumerating lines from 1. -/
def assemble (sourceCode : String) : Except AsmError (List Int × List LogEntry) :=
  assembleLoop 1 (pySplitlines sourceCode)

/-- Structured form of the `RuntimeError`s raised by
`Interpretator.execute`. -/
inductive ExecError where
  | invalidLoadAddress (address : Int)
  | invalidStoreAddress (address : Nat)
  | unknownOpcode (opcode : Nat) (index : Nat)
  deriving DecidableEq, Repr

/-- Diagnostic text of each runtime fault, following the source
f-strings. -/
def ExecError.message : ExecError → String
  | .invalidLoadAddress address =>
      "LOAD_MEMORY failed: Invalid address " ++ toString address ++ "."
  | .invalidStoreAddress address =>
      "STORE_TO_MEMORY failed: Invalid address " ++ toString address ++ "."
  | .unknownOpcode opcode index =>
      "Unknown opcode " ++ toString opcode ++ " at index " ++ toString index ++ "."

/-- One dispatch of `Interpretator.execute` on a single instruction word:
the updated memory plus the trace line, or the raised fault.  Instruction
words are natural numbers (the data model fixes them as 32-bit unsigned
values, and the full Python `int` range beyond that only adds higher bits,
which the three field masks discard identically). -/
def execStep (index : Nat) (instruction : Nat) (memory : List Int) :
    Except ExecError (List Int × String) :=
  let opcode := (instruction >>> 24) &&& 0xFF
  if opcode = 0xA4 then
    let reg := (instruction >>> 16) &&& 0xFF
    let value := instruction &&& 0xFFFF
    .ok (memory.set reg (value : Int),
      "[" ++ toString index ++ "] LOAD_CONSTANT: Loaded " ++ toString value ++
        " into register " ++ toString reg ++ ".")
  else if opcode = 0x90 then
    let reg := (instruction >>> 16) &&& 0xFF
    let offset := instruction &&& 0xFFFF
    let address : Int := memory.getD reg 0 + (offset : Int)
    if address < 0 ∨ (memory.length : Int) ≤ address then
      .error (.invalidLoadAddress address)
    else
      let value := memory.getD address.toNat 0
      .ok (memory.set reg value,
        "[" ++ toString index ++ "] LOAD_MEMORY: Loaded value " ++ toString value ++
          " from memory[" ++ toString address ++ "] into register " ++ toString reg ++ ".")
  else if opcode = 0x1D then
    let reg := (instruction >>> 16) &&& 0xFF
    let address := instruction &&& 0xFFFF
    let value := memory.getD reg 0
    if address < 0 ∨ memory.length ≤ address then
      .error (.invalidStoreAddress address)
    else
      .ok (memory.set address value,
        "[" ++ toString index ++ "] STORE_TO_MEMORY: Stored value " ++ toString value ++
          " to memory[" ++ toString address ++ "].")
  else if opcode = 0x4A then
    let reg := (instruction >>> 16) &&& 0xFF
    let value := memory.getD reg 0
    let shifted := (value <<< 1) &&& (0xFFFFFFFF : Int)
    .ok (memory.set reg shifted,
      "[" ++ toString index ++ "] SHIFT_LEFT: Shifted value in register " ++ toString reg ++
        " to " ++ toString shifted ++ ".")
  else .error (.unknownOpcode opcode index)

/-- Outcome of `Interpretator.execute`: the interpreter's final memory and
log; a fault also keeps whatever state had accumulated before the raise
(the Python object retains `self.memory` and `self.log`). -/
inductive ExecResult where
  | ok (memory : List Int) (log : List String)
  | fault (error : ExecError) (memory : List Int) (log : List String)
  deriving DecidableEq, Repr

/-- Memory component of an execution outcome. -/
def ExecResult.memory : ExecResult → List Int
  | .ok memory _ => memory
  | .fault _ memory _ => memory

/-- Trace component of an execution outcome. -/
def ExecResult.log : ExecResult → List String
  | .ok _ log => log
  | .fault _ _ log => log

/-- The `for index, instruction in enumerate(machine_code)` loop of
`Interpretator.execute`. -/
def execLoop : Nat → List Nat → List Int → List String → ExecResult
  | _, [], memory, log => .ok memory log
  | index, instruction :: rest, memory, log =>
    match execStep index instruction memory with
    | .error e => .fault e memory log
    | .ok (memory', entry) => execLoop (index + 1) rest memory' (log ++ [entry])

/-- `Interpretator.execute` run on a fresh interpreter: 256 zeroed memory
cells and an empty log. -/
def execute (machineCode : List Nat) : ExecResult :=
  execLoop 0 machineCode (List.replicate 256 0) []

/-- The single memory index an instruction writes when it executes
successfully: the operand field for `STORE_TO_MEMORY`, the register field
for the other three opcodes. -/
def writeTarget (instruction : Nat) : Nat :=
  if (instruction >>> 24) &&& 0xFF = 0x1D then instruction &&& 0xFFFF
  else (instruction >>> 16) &&& 0xFF

/-! ### Arithmetic facts about the three-field word layout -/

/-- Oring a left-shifted value with a value that fits below the shift is
addition. -/
theorem shiftLeft_lor_eq_add (a n : Nat) {b : Nat} (hb : b < 2 ^ n) :
    (a <<< n) ||| b = a * 2 ^ n + b := by
  rw [Nat.shiftLeft_eq, Nat.mul_comm a (2 ^ n), ← Nat.mul_add_lt_is_or hb a,
    Nat.mul_comm (2 ^ n) a]

/-- Additive normal form of an encoded word whose register and operand fields
are in range. -/
theorem encode_fields (op b c : Nat) (hb : b < 2 ^ 8) (hc : c < 2 ^ 16) :
    ((op <<< 24) ||| (b <<< 16)) ||| c = op * 2 ^ 24 + b * 2 ^ 16 + c := by
  have h1 : b <<< 16 < 2 ^ 24 := by
    rw [Nat.shiftLeft_eq]
    calc b * 2 ^ 16 < 2 ^ 8 * 2 ^ 16 := by
          exact Nat.mul_lt_mul_of_lt_of_le hb (Nat.le_refl _) (by norm_num)
      _ = 2 ^ 24 := by norm_num
  rw [shiftLeft_lor_eq_add op 24 h1]
  have h2 : op * 2 ^ 24 + b <<< 16 = 2 ^ 16 * (op * 2 ^ 8 + b) := by
    rw [Nat.shiftLeft_eq]; ring
  rw [h2, ← Nat.mul_add_lt_is_or hc (op * 2 ^ 8 + b)]
  ring

/-- Decoding the three fields of an additively well-formed word recovers the
encoded components. -/
theorem decode_fields (op b c : Nat) (hop : op < 2 ^ 8) (hb : b < 2 ^ 8)
    (hc : c < 2 ^ 16) :
    ((op * 2 ^ 24 + b * 2 ^ 16 + c) >>> 24) &&& 0xFF = op ∧
    ((op * 2 ^ 24 + b * 2 ^ 16 + c) >>> 16) &&& 0xFF = b ∧
    (op * 2 ^ 24 + b * 2 ^ 16 + c) &&& 0xFFFF = c := by
  have hmask8 : ∀ x : Nat, x &&& 0xFF = x % 2 ^ 8 := fun x => by
    have h := Nat.and_pow_two_sub_one_eq_mod x 8
    norm_num at h ⊢
    exact h
  have hmask16 : ∀ x : Nat, x &&& 0xFFFF = x % 2 ^ 16 := fun x => by
    have h := Nat.and_pow_two_sub_one_eq_mod x 16
    norm_num at h ⊢
    exact h
  rw [Nat.shiftRight_eq_div_pow, Nat.shiftRight_eq_div_pow, hmask8, hmask8, hmask16]
  norm_num at hop hb hc ⊢
  omega

/-- Bitwise OR of two nonnegative integers computes on the underlying
naturals. -/
theorem int_lor_ofNat (m n : Nat) : ((m : Int) ||| (n : Int)) = ((m ||| n : Nat) : Int) :=
  rfl

/-- Bitwise AND of two nonnegative integers computes on the underlying
naturals. -/
theorem int_land_ofNat (m n : Nat) : ((m : Int) &&& (n : Int)) = ((m &&& n : Nat) : Int) :=
  rfl

/-- The Python encoding expression on nonnegative register and operand is the
natural-number OR of the shifted fields. -/
theorem encodeWord_ofNat (op b c : Nat) :
    encodeWord op (b : Int) (c : Int) = ((((op <<< 24) ||| (b <<< 16)) ||| c : Nat) : Int) := by
  show ((op : Int) <<< ((24 : Nat) : Int)) ||| ((b : Int) <<< ((16 : Nat) : Int)) ||| (c : Int) = _
  rw [Int.shiftLeft_coe_nat, Int.shiftLeft_coe_nat, int_lor_ofNat, int_lor_ofNat]

/-- With an in-range register and operand, the encoded word is exactly the
sum of the three shifted fields: no field disturbs another. -/
theorem encodeWord_eq_add (op : Nat) (reg val : Int)
    (hr0 : 0 ≤ reg) (hr : reg < 2 ^ 8) (hv0 : 0 ≤ val) (hv : val < 2 ^ 16) :
    encodeWord op reg val = (op : Int) * 2 ^ 24 + reg * 2 ^ 16 + val := by
  obtain ⟨b, rfl⟩ := Int.eq_ofNat_of_zero_le hr0
  obtain ⟨c, rfl⟩ := Int.eq_ofNat_of_zero_le hv0
  have hb : b < 2 ^ 8 := by exact_mod_cast hr
  have hc : c < 2 ^ 16 := by exact_mod_cast hv
  rw [encodeWord_ofNat, encode_fields op b c hb hc]
  push_cast
  ring

/-- The interpreter's `SHIFT_LEFT` expression `(value << 1) & 0xFFFFFFFF` is
doubling modulo `2^32` on nonnegative cell values. -/
theorem shiftLeft_one_mask (v : Int) (hv : 0 ≤ v) :
    (v <<< 1) &&& (0xFFFFFFFF : Int) = 2 * v % 4294967296 := by
  obtain ⟨n, rfl⟩ := Int.eq_ofNat_of_zero_le hv
  show ((n : Int) <<< ((1 : Nat) : Int)) &&& (((4294967295 : Nat) : Int)) = _
  rw [Int.shiftLeft_coe_nat, int_land_ofNat]
  have h : (n <<< 1) &&& 4294967295 = 2 * n % 4294967296 := by
    have hm := Nat.and_pow_two_sub_one_eq_mod (n <<< 1) 32
    norm_num at hm
    rw [hm, Nat.shiftLeft_eq]
    norm_num
    omega
  rw [h]
  push_cast
  rfl

/-! ### List update facts -/

/-- Reading any index other than the updated one is unchanged by `set`. -/
theorem getD_set_ne (l : List Int) (i j : Nat) (v : Int) (h : i ≠ j) :
    (l.set i v).getD j 0 = l.getD j 0 := by
  simp [List.getD_eq_getElem?_getD, List.getElem?_set_ne h]

/-- Reading the updated index after an in-range `set` gives the new value. -/
theorem getD_set_self (l : List Int) (i : Nat) (v : Int) (h : i < l.length) :
    (l.set i v).getD i 0 = v := by
  simp [List.getD_eq_getElem?_getD, List.getElem?_set_self h]

/-! ### Facts about the tokenizer -/

/-- The head of a `dropWhile` result fails the predicate. -/
theorem dropWhile_head_false {α : Type} (p : α → Bool) :
    ∀ (l : List α) (a : α) (rest : List α), l.dropWhile p = a :: rest → p a = false := by
  intro l
  induction l with
  | nil => intro a rest h; simp [List.dropWhile] at h
  | cons x xs ih =>
    intro a rest h
    rw [List.dropWhile_cons] at h
    cases hp : p x with
    | true => rw [hp] at h; simp at h; exact ih a rest h
    | false =>
      rw [hp] at h
      simp at h
      rw [← h.1]
      exact hp

/-- The first character of a stripped character list is not whitespace. -/
theorem stripChars_head_not_ws (l : List Char) (ch : Char) (rest : List Char)
    (h : stripChars l = ch :: rest) : ch.isWhitespace = false := by
  unfold stripChars at h
  have hpre : ((l.dropWhile Char.isWhitespace).reverse.dropWhile Char.isWhitespace).reverse
      <+: l.dropWhile Char.isWhitespace := by
    have hs := List.dropWhile_suffix (l := (l.dropWhile Char.isWhitespace).reverse)
      Char.isWhitespace
    have h2 := List.reverse_prefix.mpr hs
    simpa using h2
  rw [h] at hpre
  obtain ⟨t, ht⟩ := hpre
  have hu : l.dropWhile Char.isWhitespace = ch :: (rest ++ t) := by
    rw [← ht]; simp
  exact dropWhile_head_false Char.isWhitespace l ch (rest ++ t) hu

/-- Splitting with a nonempty accumulator produces a first word that extends
the accumulator. -/
theorem wordsAux_head (l : List Char) :
    ∀ acc : List Char, acc ≠ [] →
      ∃ t ws, wordsAux l acc = (acc.reverse ++ t) :: ws := by
  induction l with
  | nil =>
    intro acc h
    exact ⟨[], [], by simp [wordsAux, h]⟩
  | cons ch rest ih =>
    intro acc h
    cases hw : ch.isWhitespace with
    | true =>
      refine ⟨[], wordsAux rest [], ?_⟩
      simp [wordsAux, hw, h]
    | false =>
      obtain ⟨t, ws, heq⟩ := ih (ch :: acc) (by simp)
      refine ⟨ch :: t, ws, ?_⟩
      simp only [wordsAux, hw, Bool.false_eq_true, if_false, heq, List.reverse_cons,
        List.append_assoc, List.singleton_append]

/-- A line whose token list starts with a non-comment token is neither blank
nor a comment, so `assembleLine` hands its tokens to `assembleParts`. -/
theorem assembleLine_of_split (lineNo : Nat) (rawLine : String) (c : String)
    (ps : List String) (hsplit : pySplit (pyStrip rawLine) = c :: ps)
    (hc : c.data.headD ' ' ≠ ';') :
    assembleLine lineNo rawLine =
      (assembleParts lineNo (pyStrip rawLine) (c :: ps)).map some := by
  have hdata : (pyStrip rawLine).data ≠ [] := by
    intro h0
    have hnil : pySplit (pyStrip rawLine) = [] := by
      unfold pySplit wordsChars
      rw [h0]
      simp [wordsAux]
    rw [hsplit] at hnil
    simp at hnil
  obtain ⟨ch, rest, hdl⟩ : ∃ ch rest, (pyStrip rawLine).data = ch :: rest := by
    cases hd : (pyStrip rawLine).data with
    | nil => exact absurd hd hdata
    | cons a b => exact ⟨a, b, rfl⟩
  have hdl' : stripChars rawLine.data = ch :: rest := hdl
  have hnws : ch.isWhitespace = false := stripChars_head_not_ws rawLine.data ch rest hdl'
  have hchar : c.data.headD ' ' = ch := by
    obtain ⟨t, ws, hw⟩ := wordsAux_head rest [ch] (by simp)
    have hcomp : pySplit (pyStrip rawLine) = (⟨ch :: t⟩ : String) :: (ws.map fun w => ⟨w⟩) := by
      unfold pySplit wordsChars
      rw [hdl]
      simp only [wordsAux, hnws, Bool.false_eq_true, if_false]
      rw [hw]
      simp
    rw [hsplit] at hcomp
    have hcfst : c = (⟨ch :: t⟩ : String) := (List.cons.injEq _ _ _ _ ▸ hcomp).1
    rw [hcfst]
    rfl
  have hcond : ¬ ((pyStrip rawLine).data = [] ∨ (pyStrip rawLine).data.headD ' ' = ';') := by
    push_neg
    refine ⟨hdata, ?_⟩
    rw [hdl]
    simp only [List.headD_cons]
    rw [← hchar]
    exact hc
  simp only [assembleLine]
  rw [if_neg hcond, hsplit]

/-! ### The assembly loop -/

/-- A line-number-carrying error produced by `assembleParts` carries exactly
the line number the loop handed it. -/
theorem assembleParts_lineNo (n : Nat) (line : String) (parts : List String)
    (e : AsmError) (m : Nat) (h : assembleParts n line parts = .error e)
    (hm : e.lineNo? = some m) : m = n := by
  simp only [assembleParts] at h
  cases hio : instructions (parts.headD "") with
  | none =>
    rw [hio] at h
    simp only [Except.error.injEq] at h
    subst h
    simp [AsmError.lineNo?] at hm
    omega
  | some opcode =>
    rw [hio] at h
    split_ifs at h with h1 h2 h3 h4
    all_goals repeat' split at h
    all_goals (try (cases h))
    all_goals simp_all [AsmError.lineNo?]

/-- A line-number-carrying error produced by `assembleLine` carries exactly
the line number the loop handed it. -/
theorem assembleLine_lineNo (n : Nat) (l : String) (e : AsmError) (m : Nat)
    (h : assembleLine n l = .error e) (hm : e.lineNo? = some m) : m = n := by
  simp only [assembleLine] at h
  split at h
  · simp at h
  · cases hp : assembleParts n (pyStrip l) (pySplit (pyStrip l)) with
    | error e' =>
      rw [hp] at h
      rw [show Except.map some (Except.error e') =
            (Except.error e' : Except AsmError (Option (Int × LogEntry))) from rfl] at h
      obtain rfl : e' = e := Except.error.inj h
      exact assembleParts_lineNo n _ _ e' m hp hm
    | ok res =>
      rw [hp] at h
      exact absurd h (by exact fun hx => by cases hx)

/-- The first failing line of the assembly loop is located at the offset its
error reports. -/
theorem assembleLoop_error (lines : List String) :
    ∀ (n : Nat) (e : AsmError), assembleLoop n lines = .error e →
      ∃ k, k < lines.length ∧ assembleLine (n + k) (lines.getD k "") = .error e := by
  induction lines with
  | nil => intro n e h; simp [assembleLoop] at h
  | cons line rest ih =>
    intro n e h
    cases hline : assembleLine n line with
    | error e' =>
      simp only [assembleLoop, hline] at h
      obtain rfl : e' = e := by simpa using h
      exact ⟨0, by simp, by simpa using hline⟩
    | ok res =>
      cases res with
      | none =>
        simp only [assembleLoop, hline] at h
        obtain ⟨k, hk, hl⟩ := ih (n + 1) e h
        refine ⟨k + 1, by simpa using hk, ?_⟩
        rw [show n + (k + 1) = n + 1 + k by omega]
        simpa using hl
      | some pair =>
        obtain ⟨word, entry⟩ := pair
        simp only [assembleLoop, hline] at h
        cases hrest : assembleLoop (n + 1) rest with
        | error e2 =>
          rw [hrest] at h
          obtain rfl : e2 = e := by simpa using h
          obtain ⟨k, hk, hl⟩ := ih (n + 1) _ hrest
          refine ⟨k + 1, by simpa using hk, ?_⟩
          rw [show n + (k + 1) = n + 1 + k by omega]
          simpa using hl
        | ok res2 =>
          rw [hrest] at h
          obtain ⟨words, log⟩ := res2
          simp at h

/-! ### The execution loop -/

/-- Decomposition of a faulting run: the fault happens at some offset `k`,
the machine state at the fault is exactly the state after running the `k`
completed instructions, the log has one entry per completed instruction,
and the instruction at offset `k` is the one that fails. -/
theorem execLoop_fault (code : List Nat) :
    ∀ (n : Nat) (mem : List Int) (log : List String) (e : ExecError)
      (mem' : List Int) (log' : List String),
      execLoop n code mem log = .fault e mem' log' →
      ∃ k, k < code.length ∧
        execLoop n (code.take k) mem log = .ok mem' log' ∧
        log'.length = log.length + k ∧
        execStep (n + k) (code.getD k 0) mem' = .error e := by
  induction code with
  | nil => intro n mem log e mem' log' h; simp [execLoop] at h
  | cons instr rest ih =>
    intro n mem log e mem' log' h
    cases hstep : execStep n instr mem with
    | error e0 =>
      simp only [execLoop, hstep] at h
      rw [ExecResult.fault.injEq] at h
      obtain ⟨rfl, rfl, rfl⟩ := h
      exact ⟨0, by simp, by simp [execLoop], by simp, by simpa using hstep⟩
    | ok pair =>
      obtain ⟨mem1, entry⟩ := pair
      have h' : execLoop (n + 1) rest mem1 (log ++ [entry]) = .fault e mem' log' := by
        simpa only [execLoop, hstep] using h
      obtain ⟨k, hk, hrun, hlen, hfail⟩ := ih (n + 1) mem1 (log ++ [entry]) e mem' log' h'
      refine ⟨k + 1, by simpa using hk, ?_, ?_, ?_⟩
      · simp only [List.take_succ_cons, execLoop, hstep]
        exact hrun
      · simp only [List.length_append, List.length_singleton] at hlen
        omega
      · rw [show n + (k + 1) = n + 1 + k by omega]
        simpa using hfail

/-- The memory invariant every reachable machine state satisfies: 256 cells,
each a nonnegative integer below `2^32`. -/
def memOk (mem : List Int) : Prop :=
  mem.length = 256 ∧ ∀ i : Nat, 0 ≤ mem.getD i 0 ∧ mem.getD i 0 < 4294967296

/-- Setting a cell to an in-range value preserves the memory invariant. -/
theorem memOk_set (mem : List Int) (i : Nat) (v : Int) (h : memOk mem)
    (hv0 : 0 ≤ v) (hv : v < 4294967296) : memOk (mem.set i v) := by
  refine ⟨by simp [h.1], fun j => ?_⟩
  by_cases hij : i = j
  · subst hij
    by_cases hilen : i < mem.length
    · rw [getD_set_self mem i v hilen]
      exact ⟨hv0, hv⟩
    · have : (mem.set i v).getD i 0 = 0 := by
        rw [List.getD_eq_getElem?_getD]
        rw [List.getElem?_eq_none (by simp; omega)]
        rfl
      rw [this]
      norm_num
  · rw [getD_set_ne mem i j v hij]
    exact h.2 j

/-- A successful step preserves the memory invariant. -/
theorem execStep_memOk (index instr : Nat) (mem mem' : List Int) (entry : String)
    (hmem : memOk mem) (h : execStep index instr mem = .ok (mem', entry)) :
    memOk mem' := by
  simp only [execStep] at h
  split_ifs at h with h1 h2 h3 h4
  all_goals cases h
  all_goals first
    | (refine memOk_set mem _ _ hmem (by positivity) ?_
       have hle : instr &&& 0xFFFF ≤ 0xFFFF := Nat.and_le_right
       have hle' : ((instr &&& 0xFFFF : Nat) : Int) ≤ 0xFFFF := by exact_mod_cast hle
       omega)
    | exact memOk_set mem _ _ hmem (hmem.2 _).1 (hmem.2 _).2
    | (rw [shiftLeft_one_mask _ (hmem.2 ((instr >>> 16) &&& 0xFF)).1]
       exact memOk_set mem _ _ hmem (Int.emod_nonneg _ (by norm_num))
         (Int.emod_lt_of_pos _ (by norm_num)))

/-- Every state reachable by the execution loop from an invariant-satisfying
state satisfies the invariant, including the state kept by a fault. -/
theorem execLoop_memOk (code : List Nat) :
    ∀ (n : Nat) (mem : List Int) (log : List String), memOk mem →
      memOk (execLoop n code mem log).memory := by
  induction code with
  | nil =>
    intro n mem log hm
    simpa [execLoop, ExecResult.memory] using hm
  | cons instr rest ih =>
    intro n mem log hm
    cases hstep : execStep n instr mem with
    | error e => simpa [execLoop, hstep, ExecResult.memory] using hm
    | ok pair =>
      obtain ⟨mem1, entry⟩ := pair
      have hm1 := execStep_memOk n instr mem mem1 entry hm hstep
      simpa only [execLoop, hstep] using ih (n + 1) mem1 (log ++ [entry]) hm1

/-- The all-zero initial memory satisfies the invariant. -/
theorem memOk_init : memOk (List.replicate 256 0) := by
  refine ⟨by rw [List.length_replicate], fun i => ?_⟩
  have : (List.replicate 256 (0 : Int)).getD i 0 = 0 := by
    rw [List.getD_eq_getElem?_getD, List.getElem?_replicate]
    split <;> rfl
  rw [this]
  norm_num

/-- A successful step only writes the instruction's single target cell. -/
theorem execStep_frame (index instr : Nat) (mem mem' : List Int) (entry : String)
    (h : execStep index instr mem = .ok (mem', entry)) :
    ∀ i, i ≠ writeTarget instr → mem'.getD i 0 = mem.getD i 0 := by
  intro i hi
  simp only [execStep] at h
  split_ifs at h with h1 h2 h3 h4
  all_goals cases h
  all_goals refine getD_set_ne mem _ i _ fun hx => hi ?_
  all_goals rw [← hx]
  all_goals simp_all [writeTarget]

/-- A successful step turns the memory into a single `set` at the
instruction's write target. -/
theorem execStep_ok_set (index instr : Nat) (mem mem' : List Int) (entry : String)
    (h : execStep index instr mem = .ok (mem', entry)) :
    ∃ v, mem' = mem.set (writeTarget instr) v := by
  simp only [execStep] at h
  split_ifs at h with h1 h2 h3 h4
  all_goals cases h
  all_goals first
    | (rw [show writeTarget instr = (instr >>> 16) &&& 0xFF by simp_all [writeTarget]]
       exact ⟨_, rfl⟩)
    | (rw [show writeTarget instr = instr &&& 0xFFFF by simp_all [writeTarget]]
       exact ⟨_, rfl⟩)

/-! ### Reduction of `assembleParts` on well-formed token lists -/

/-- For the three unvalidated mnemonics, three tokens with parsable operands
always encode successfully, with the word given by the raw OR expression. -/
theorem assembleParts_simple (lineNo : Nat) (line : String) (c s1 s2 : String)
    (reg val : Int) (op : Nat)
    (hc : c = "LOAD_CONSTANT" ∨ c = "LOAD_MEMORY" ∨ c = "SHIFT_LEFT")
    (hop : instructions c = some op)
    (h1 : pyInt? s1 = some reg) (h2 : pyInt? s2 = some val) :
    assembleParts lineNo line [c, s1, s2] =
      .ok (encodeWord op reg val,
        ⟨lineNo, line, pyFormatHex8 (encodeWord op reg val)⟩) := by
  rcases hc with rfl | rfl | rfl
  · obtain rfl : op = 0xA4 := by
      rw [show instructions "LOAD_CONSTANT" = some 0xA4 from by decide] at hop
      exact (Option.some.inj hop).symm
    simp [assembleParts, instructions, h1, h2]
  · obtain rfl : op = 0x90 := by
      rw [show instructions "LOAD_MEMORY" = some 0x90 from by decide] at hop
      exact (Option.some.inj hop).symm
    simp [assembleParts, instructions, h1, h2]
  · obtain rfl : op = 0x4A := by
      rw [show instructions "SHIFT_LEFT" = some 0x4A from by decide] at hop
      exact (Option.some.inj hop).symm
    simp [assembleParts, instructions, h1, h2]

/-- Inversion of a successful encode: the mnemonic is in the opcode table,
its opcode fits in a byte, and the word is the raw OR expression. -/
theorem assembleParts_ok_inv (lineNo : Nat) (line : String) (c s1 s2 : String)
    (w : Int) (entry : LogEntry) (reg val : Int)
    (h1 : pyInt? s1 = some reg) (h2 : pyInt? s2 = some val)
    (h : assembleParts lineNo line [c, s1, s2] = .ok (w, entry)) :
    ∃ op, instructions c = some op ∧ op < 2 ^ 8 ∧ w = encodeWord op reg val := by
  by_cases hc1 : c = "LOAD_CONSTANT"
  · subst hc1
    simp [assembleParts, instructions, h1, h2] at h
    exact ⟨0xA4, by decide, by norm_num, h.1.symm⟩
  by_cases hc2 : c = "STORE_TO_MEMORY"
  · subst hc2
    simp [assembleParts, instructions, h1, h2] at h
    split_ifs at h <;> cases h
    all_goals exact ⟨0x1D, by decide, by norm_num, rfl⟩
  by_cases hc3 : c = "LOAD_MEMORY"
  · subst hc3
    simp [assembleParts, instructions, h1, h2] at h
    exact ⟨0x90, by decide, by norm_num, h.1.symm⟩
  by_cases hc4 : c = "SHIFT_LEFT"
  · subst hc4
    simp [assembleParts, instructions, h1, h2] at h
    exact ⟨0x4A, by decide, by norm_num, h.1.symm⟩
  · exfalso
    have hnone : instructions c = none := by
      simp [instructions, hc1, hc2, hc3, hc4]
    simp [assembleParts, hnone] at h

/-! ### Claim C1 -/

/-- Claim C1 counterexample: the line `LOAD_CONSTANT 0 65536` passes the
mnemonic, argument-count and integer-parsing checks, but its encoded word is
`0xA4010000`, not the `0xA4000000` that the claimed truncation
`(opcode << 24) | (register << 16) | (operand mod 2^16)` predicts; the
operand's bit 16 lands in the register field, whose decoded value becomes 1
instead of the written 0. -/
theorem C1_counterexample :
    (assembleLine 1 "LOAD_CONSTANT 0 65536").map (Option.map Prod.fst) =
      .ok (some 0xA4010000) ∧
    encodeWord 0xA4 0 ((65536 : Int) % 2 ^ 16) = 0xA4000000 ∧
    (0xA4010000 : Int) ≠ 0xA4000000 ∧
    ((0xA4010000 : Nat) >>> 16) &&& 0xFF = 1 :=
  ⟨by decide, by decide, by decide, by decide⟩

/-- Claim C1, amended: for a source line whose mnemonic is `LOAD_CONSTANT`,
`LOAD_MEMORY` or `SHIFT_LEFT` and that passes the mnemonic, argument-count
and integer-parsing checks, the encoded word is the plain Python expression
`(opcode << 24) | (register << 16) | operand` with **no** truncation of the
operand; only when the register is in `[0, 2^8)` and the operand in
`[0, 2^16)` does it equal the disturbance-free sum of the three shifted
fields. -/
theorem C1_encode (lineNo : Nat) (rawLine c s1 s2 : String) (reg val : Int)
    (op : Nat)
    (hc : c = "LOAD_CONSTANT" ∨ c = "LOAD_MEMORY" ∨ c = "SHIFT_LEFT")
    (hsplit : pySplit (pyStrip rawLine) = [c, s1, s2])
    (hop : instructions c = some op)
    (h1 : pyInt? s1 = some reg) (h2 : pyInt? s2 = some val) :
    (∃ entry, assembleLine lineNo rawLine =
      .ok (some (encodeWord op reg val, entry))) ∧
    (0 ≤ reg → reg < 2 ^ 8 → 0 ≤ val → val < 2 ^ 16 →
      encodeWord op reg val = (op : Int) * 2 ^ 24 + reg * 2 ^ 16 + val) := by
  constructor
  · have hhead : c.data.headD ' ' ≠ ';' := by
      rcases hc with rfl | rfl | rfl <;> decide
    rw [assembleLine_of_split lineNo rawLine c [s1, s2] hsplit hhead,
      assembleParts_simple lineNo (pyStrip rawLine) c s1 s2 reg val op hc hop h1 h2]
    exact ⟨_, rfl⟩
  · intro hr0 hr hv0 hv
    exact encodeWord_eq_add op reg val hr0 hr hv0 hv

/-- Witness for the amended C1 at the line `LOAD_CONSTANT 0 5`. -/
theorem C1_encode_witness :
    (∃ entry, assembleLine 1 "LOAD_CONSTANT 0 5" =
      .ok (some (encodeWord 0xA4 0 5, entry))) ∧
    (0 ≤ (0 : Int) → (0 : Int) < 2 ^ 8 → 0 ≤ (5 : Int) → (5 : Int) < 2 ^ 16 →
      encodeWord 0xA4 0 5 = (0xA4 : Int) * 2 ^ 24 + 0 * 2 ^ 16 + 5) :=
  C1_encode 1 "LOAD_CONSTANT 0 5" "LOAD_CONSTANT" "0" "5" 0 5 0xA4
    (Or.inl rfl) (by decide) (by decide) (by decide) (by decide)

/-! ### Claim C2 -/

/-- Claim C2 counterexample: `LOAD_CONSTANT 0 65536` assembles without error
to the word `0xA4010000`, but decoding bits 23-16 of that word yields
register 1, not the written register 0 — so an operand above 65535 does not
merely round-trip to its low 16 bits, it corrupts the register field. -/
theorem C2_counterexample :
    (assembleLine 1 "LOAD_CONSTANT 0 65536").map (Option.map Prod.fst) =
      .ok (some 0xA4010000) ∧
    ((0xA4010000 : Nat) >>> 16) &&& 0xFF = 1 ∧
    (1 : Nat) ≠ 0 :=
  ⟨by decide, by decide, by decide⟩

/-- Claim C2, amended: for every source line that assembles without error
and whose parsed register lies in `[0, 2^8)` and parsed operand in
`[0, 2^16)`, decoding the produced word by bits 31-24 / 23-16 / 15-0
reproduces the mnemonic's table opcode, the written register and the
written operand. -/
theorem C2_roundtrip (lineNo : Nat) (rawLine c s1 s2 : String) (reg val w : Int)
    (entry : LogEntry)
    (hsplit : pySplit (pyStrip rawLine) = [c, s1, s2])
    (h1 : pyInt? s1 = some reg) (h2 : pyInt? s2 = some val)
    (hok : assembleLine lineNo rawLine = .ok (some (w, entry)))
    (hr0 : 0 ≤ reg) (hr : reg < 2 ^ 8) (hv0 : 0 ≤ val) (hv : val < 2 ^ 16) :
    instructions c = some ((w.toNat >>> 24) &&& 0xFF) ∧
    (w.toNat >>> 16) &&& 0xFF = reg.toNat ∧
    w.toNat &&& 0xFFFF = val.toNat := by
  by_cases hskip : (pyStrip rawLine).data = [] ∨ (pyStrip rawLine).data.headD ' ' = ';'
  · exfalso
    simp only [assembleLine, if_pos hskip] at hok
    cases hok
  · have hmap := hok
    simp only [assembleLine, if_neg hskip] at hmap
    rw [hsplit] at hmap
    have hparts : assembleParts lineNo (pyStrip rawLine) [c, s1, s2] = .ok (w, entry) := by
      cases hp : assembleParts lineNo (pyStrip rawLine) [c, s1, s2] with
      | error e0 => rw [hp] at hmap; cases hmap
      | ok res => rw [hp] at hmap; cases hmap; rfl
    obtain ⟨op, hop, hoplt, rfl⟩ :=
      assembleParts_ok_inv lineNo (pyStrip rawLine) c s1 s2 _ entry reg val h1 h2 hparts
    obtain ⟨b, rfl⟩ := Int.eq_ofNat_of_zero_le hr0
    obtain ⟨cv, rfl⟩ := Int.eq_ofNat_of_zero_le hv0
    have hb : b < 2 ^ 8 := by exact_mod_cast hr
    have hcv : cv < 2 ^ 16 := by exact_mod_cast hv
    rw [encodeWord_ofNat, Int.toNat_ofNat, Int.toNat_ofNat, Int.toNat_ofNat,
      encode_fields op b cv hb hcv]
    obtain ⟨d1, d2, d3⟩ := decode_fields op b cv hoplt hb hcv
    exact ⟨by rw [d1]; exact hop, d2, d3⟩

/-- Witness for the amended C2 at the line `LOAD_MEMORY 3 7`. -/
theorem C2_roundtrip_witness :
    instructions "LOAD_MEMORY" = some (((encodeWord 0x90 3 7).toNat >>> 24) &&& 0xFF) ∧
    ((encodeWord 0x90 3 7).toNat >>> 16) &&& 0xFF = (3 : Int).toNat ∧
    (encodeWord 0x90 3 7).toNat &&& 0xFFFF = (7 : Int).toNat :=
  C2_roundtrip 1 "LOAD_MEMORY 3 7" "LOAD_MEMORY" "3" "7" 3 7 (encodeWord 0x90 3 7)
    ⟨1, pyStrip "LOAD_MEMORY 3 7", pyFormatHex8 (encodeWord 0x90 3 7)⟩
    (by decide) (by decide) (by decide)
    (by
      rw [assembleLine_of_split 1 "LOAD_MEMORY 3 7" "LOAD_MEMORY" ["3", "7"]
          (by decide) (by decide),
        assembleParts_simple 1 (pyStrip "LOAD_MEMORY 3 7") "LOAD_MEMORY" "3" "7" 3 7 0x90
          (Or.inr (Or.inl rfl)) (by decide) (by decide) (by decide)]
      rfl)
    (by decide) (by decide) (by decide) (by decide)

/-! ### Claim C3 -/

/-- Claim C3: when execution faults (invalid address or unknown opcode) at
some instruction, it halts there: the memory at the fault equals the memory
produced by executing exactly the instructions strictly before the fault
(the faulting instruction writes nothing, later instructions never run),
and the trace holds exactly one entry per completed instruction and none
for the faulting one. -/
theorem C3_halt_at_fault (machineCode : List Nat) (e : ExecError)
    (mem : List Int) (log : List String)
    (h : execute machineCode = .fault e mem log) :
    ∃ k, k < machineCode.length ∧
      execute (machineCode.take k) = .ok mem log ∧
      log.length = k ∧
      execStep k (machineCode.getD k 0) mem = .error e := by
  obtain ⟨k, hk, hrun, hlen, hfail⟩ :=
    execLoop_fault machineCode 0 (List.replicate 256 0) [] e mem log h
  exact ⟨k, hk, hrun, by simpa using hlen, by simpa using hfail⟩

/-- Witness for C3: `LOAD_MEMORY 0 300` faults at index 0 with address 300,
leaving the all-zero memory and an empty trace. -/
theorem C3_halt_at_fault_witness :
    ∃ k, k < ([0x9000012C] : List Nat).length ∧
      execute (([0x9000012C] : List Nat).take k) = .ok (List.replicate 256 0) [] ∧
      ([] : List String).length = k ∧
      execStep k (([0x9000012C] : List Nat).getD k 0) (List.replicate 256 0) =
        .error (.invalidLoadAddress 300) :=
  C3_halt_at_fault [0x9000012C] (.invalidLoadAddress 300) (List.replicate 256 0) []
    (by decide)

/-! ### Claim C4 -/

/-- Claim C4: a `STORE_TO_MEMORY` line with three tokens and parsable
operands fails with the `RangeError` naming the offending value whenever
the register is outside `[0, 32)` (checked first) or the address is outside
`[0, 2^24)`; the identical operand values under `LOAD_CONSTANT`,
`LOAD_MEMORY` or `SHIFT_LEFT` trigger no range check and always assemble
successfully. -/
theorem C4_range_checks (lineNo : Nat) (rawLine s1 s2 : String) (reg a : Int)
    (h1 : pyInt? s1 = some reg) (h2 : pyInt? s2 = some a) :
    (pySplit (pyStrip rawLine) = ["STORE_TO_MEMORY", s1, s2] →
      (¬ (0 ≤ reg ∧ reg < 32) →
        assembleLine lineNo rawLine = .error (.invalidRegister reg)) ∧
      ((0 ≤ reg ∧ reg < 32) → ¬ (0 ≤ a ∧ a < 2 ^ 24) →
        assembleLine lineNo rawLine = .error (.invalidAddress a))) ∧
    (∀ c, (c = "LOAD_CONSTANT" ∨ c = "LOAD_MEMORY" ∨ c = "SHIFT_LEFT") →
      pySplit (pyStrip rawLine) = [c, s1, s2] →
      ∃ w entry, assembleLine lineNo rawLine = .ok (some (w, entry))) := by
  constructor
  · intro hsplit
    have hred := assembleLine_of_split lineNo rawLine "STORE_TO_MEMORY" [s1, s2]
      hsplit (by decide)
    have h224 : ((1 <<< 24 : Int)) = 2 ^ 24 := by decide
    constructor
    · intro hreg
      have hparts : assembleParts lineNo (pyStrip rawLine) ["STORE_TO_MEMORY", s1, s2] =
          .error (.invalidRegister reg) := by
        simp [assembleParts, instructions, h1, h2, hreg]
      rw [hred, hparts]
      rfl
    · intro hreg haddr
      have hparts : assembleParts lineNo (pyStrip rawLine) ["STORE_TO_MEMORY", s1, s2] =
          .error (.invalidAddress a) := by
        push_neg at haddr
        simp [assembleParts, instructions, h1, h2, hreg]
        intro h0
        exact le_trans (le_of_eq (by norm_num)) (haddr h0)
      rw [hred, hparts]
      rfl
  · intro c hc hsplit
    have hhead : c.data.headD ' ' ≠ ';' := by
      rcases hc with rfl | rfl | rfl <;> decide
    have hop : ∃ op, instructions c = some op := by
      rcases hc with rfl | rfl | rfl
      · exact ⟨0xA4, by decide⟩
      · exact ⟨0x90, by decide⟩
      · exact ⟨0x4A, by decide⟩
    obtain ⟨op, hop⟩ := hop
    rw [assembleLine_of_split lineNo rawLine c [s1, s2] hsplit hhead,
      assembleParts_simple lineNo (pyStrip rawLine) c s1 s2 reg a op hc hop h1 h2]
    exact ⟨_, _, rfl⟩

/-- Witness for C4 at the line `STORE_TO_MEMORY 99 5`: register 99 is
outside `[0, 32)`. -/
theorem C4_range_checks_witness :
    ((pySplit (pyStrip "STORE_TO_MEMORY 99 5") = ["STORE_TO_MEMORY", "99", "5"] →
      (¬ ((0 : Int) ≤ 99 ∧ (99 : Int) < 32) →
        assembleLine 1 "STORE_TO_MEMORY 99 5" = .error (.invalidRegister 99)) ∧
      (((0 : Int) ≤ 99 ∧ (99 : Int) < 32) → ¬ ((0 : Int) ≤ 5 ∧ (5 : Int) < 2 ^ 24) →
        assembleLine 1 "STORE_TO_MEMORY 99 5" = .error (.invalidAddress 5))) ∧
    (∀ c, (c = "LOAD_CONSTANT" ∨ c = "LOAD_MEMORY" ∨ c = "SHIFT_LEFT") →
      pySplit (pyStrip "STORE_TO_MEMORY 99 5") = [c, "99", "5"] →
      ∃ w entry, assembleLine 1 "STORE_TO_MEMORY 99 5" = .ok (some (w, entry)))) ∧
    assembleLine 1 "STORE_TO_MEMORY 99 5" = .error (.invalidRegister 99) :=
  ⟨C4_range_checks 1 "STORE_TO_MEMORY 99 5" "99" "5" 99 5 (by decide) (by decide),
   by decide⟩

/-! ### Claim C5 -/

/-- Claim C5: a `SHIFT_LEFT` instruction on register `r` never faults and
replaces cell `r` by its doubled value reduced modulo `2^32` (for the
nonnegative cell values execution produces). -/
theorem C5_shift_left (index instruction : Nat) (mem : List Int)
    (hop : (instruction >>> 24) &&& 0xFF = 0x4A)
    (hnn : 0 ≤ mem.getD ((instruction >>> 16) &&& 0xFF) 0) :
    ∃ entry, execStep index instruction mem =
      .ok (mem.set ((instruction >>> 16) &&& 0xFF)
        (2 * mem.getD ((instruction >>> 16) &&& 0xFF) 0 % 4294967296), entry) := by
  have hv := shiftLeft_one_mask (mem.getD ((instruction >>> 16) &&& 0xFF) 0) hnn
  refine Exists.intro ("[" ++ toString index ++ "] SHIFT_LEFT: Shifted value in register " ++
      toString ((instruction >>> 16) &&& 0xFF) ++ " to " ++
      toString (2 * mem.getD ((instruction >>> 16) &&& 0xFF) 0 % 4294967296) ++ ".") ?_
  simp only [execStep, hop]
  rw [if_neg (by decide), if_neg (by decide), if_neg (by decide), if_pos trivial, hv]
  norm_num

/-- Witness for C5: with cell 0 holding `0x80000000`, `SHIFT_LEFT 0` yields
cell value 0 (wraparound), not an error. -/
theorem C5_shift_left_witness :
    (∃ entry, execStep 0 0x4A000000 ((List.replicate 256 (0 : Int)).set 0 0x80000000) =
      .ok (((List.replicate 256 (0 : Int)).set 0 0x80000000).set
        ((0x4A000000 >>> 16) &&& 0xFF)
        (2 * ((List.replicate 256 (0 : Int)).set 0 0x80000000).getD
          ((0x4A000000 >>> 16) &&& 0xFF) 0 % 4294967296), entry)) ∧
    2 * ((List.replicate 256 (0 : Int)).set 0 0x80000000).getD
      ((0x4A000000 >>> 16) &&& 0xFF) 0 % 4294967296 = 0 :=
  ⟨C5_shift_left 0 0x4A000000 ((List.replicate 256 (0 : Int)).set 0 0x80000000)
    (by decide) (by decide), by decide⟩

/-! ### Claim C6 -/

/-- Claim C6: the three-line example assembles to exactly the words
`0xA4000005, 0x4A000000, 0x1D00000A`, and executing them from the all-zero
memory ends with cell 0 = 10, cell 10 = 10 and every other cell 0. -/
theorem C6_end_to_end :
    (assemble "LOAD_CONSTANT 0 5\nSHIFT_LEFT 0 0\nSTORE_TO_MEMORY 0 10").map Prod.fst =
      .ok [0xA4000005, 0x4A000000, 0x1D00000A] ∧
    execute [0xA4000005, 0x4A000000, 0x1D00000A] =
      .ok (((List.replicate 256 (0 : Int)).set 0 10).set 10 10)
        ["[0] LOAD_CONSTANT: Loaded 5 into register 0.",
         "[1] SHIFT_LEFT: Shifted value in register 0 to 10.",
         "[2] STORE_TO_MEMORY: Stored value 10 to memory[10]."] ∧
    (execute [0xA4000005, 0x4A000000, 0x1D00000A]).memory.getD 0 0 = 10 ∧
    (execute [0xA4000005, 0x4A000000, 0x1D00000A]).memory.getD 10 0 = 10 ∧
    ((List.range 256).all fun i => i == 0 || i == 10 ||
      ((execute [0xA4000005, 0x4A000000, 0x1D00000A]).memory.getD i 0 == 0)) = true :=
  ⟨by decide, by decide, by decide, by decide, by decide⟩

/-! ### Claim C7 -/

/-- Claim C7 counterexample: the one-line source `STORE_TO_MEMORY 99 0`
(line 1) aborts assembly with the range error whose whole diagnostic is
`Invalid register number: 99` — a text that contains no character `1`
(`Char.ofNat 49`), hence no line number at all. -/
theorem C7_counterexample :
    assemble "STORE_TO_MEMORY 99 0" = .error (.invalidRegister 99) ∧
    (AsmError.invalidRegister 99).message = "Invalid register number: 99" ∧
    (AsmError.invalidRegister 99).message.data.contains (Char.ofNat 49) = false ∧
    (AsmError.invalidRegister 99).lineNo? = none :=
  ⟨by decide, by decide, by decide, by decide⟩

/-- Claim C7, amended: `UnknownInstruction` and `ArgumentCountError` (and the
unreachable final `else`) carry the originating 1-based line number in their
diagnostics — the stored number is exactly the index of the line that fails,
and the message ends with it; `MalformedOperand` and `RangeError` carry only
the offending token or value and no line number. -/
theorem C7_line_numbers (sourceCode : String) (e : AsmError) (m : Nat)
    (h : assemble sourceCode = .error e) (hm : e.lineNo? = some m) :
    1 ≤ m ∧ m ≤ (pySplitlines sourceCode).length ∧
    assembleLine m ((pySplitlines sourceCode).getD (m - 1) "") = .error e ∧
    ∃ p, e.message = p ++ toString m := by
  obtain ⟨k, hk, hl⟩ := assembleLoop_error (pySplitlines sourceCode) 1 e h
  obtain rfl : m = 1 + k := assembleLine_lineNo (1 + k) _ e m hl hm
  refine ⟨by omega, by omega, ?_, ?_⟩
  · rw [show 1 + k - 1 = k by omega]
    exact hl
  · cases e with
    | unknownInstruction cmd n =>
      obtain rfl : n = 1 + k := by simpa [AsmError.lineNo?] using hm
      exact ⟨"Unknown instruction " ++ sq ++ cmd ++ sq ++ " on line ", rfl⟩
    | argumentCount cmd n =>
      obtain rfl : n = 1 + k := by simpa [AsmError.lineNo?] using hm
      exact ⟨cmd ++ " requires 2 arguments on line ", rfl⟩
    | unhandled cmd n =>
      obtain rfl : n = 1 + k := by simpa [AsmError.lineNo?] using hm
      exact ⟨"Unhandled instruction " ++ sq ++ cmd ++ sq ++ " on line ", rfl⟩
    | malformedOperand tok => simp [AsmError.lineNo?] at hm
    | invalidRegister reg => simp [AsmError.lineNo?] at hm
    | invalidAddress addr => simp [AsmError.lineNo?] at hm

/-- Witness for the amended C7: `FOO 1 2` fails on line 1 with an
`UnknownInstruction` error carrying line number 1. -/
theorem C7_line_numbers_witness :
    1 ≤ 1 ∧ 1 ≤ (pySplitlines "FOO 1 2").length ∧
    assembleLine 1 ((pySplitlines "FOO 1 2").getD (1 - 1) "") =
      .error (.unknownInstruction "FOO" 1) ∧
    ∃ p, (AsmError.unknownInstruction "FOO" 1).message = p ++ toString 1 :=
  C7_line_numbers "FOO 1 2" (.unknownInstruction "FOO" 1) 1 (by decide) (by decide)

/-! ### Claim C8 -/

/-- Claim C8 counterexample: the two-word program
`[LOAD_CONSTANT 0 0, LOAD_MEMORY 0 300]` faults at instruction index 1 (its
trace holds exactly the one entry of the completed instruction 0), with the
complete diagnostic `LOAD_MEMORY failed: Invalid address 300.` — a text that
contains no character `1` (`Char.ofNat 49`), hence not the faulting
instruction's index. -/
theorem C8_counterexample :
    execute [0xA4000000, 0x9000012C] =
      .fault (.invalidLoadAddress 300) ((List.replicate 256 (0 : Int)).set 0 0)
        ["[0] LOAD_CONSTANT: Loaded 0 into register 0."] ∧
    (ExecError.invalidLoadAddress 300).message =
      "LOAD_MEMORY failed: Invalid address 300." ∧
    (ExecError.invalidLoadAddress 300).message.data.contains (Char.ofNat 49) = false :=
  ⟨by decide, by decide, by decide⟩

/-- Claim C8, amended: an `InvalidAddress` fault of `LOAD_MEMORY` or
`STORE_TO_MEMORY` carries the computed out-of-range address, and its
diagnostic names exactly that address — but not the instruction index,
which only `UnknownOpcode` diagnostics carry. -/
theorem C8_invalid_address (index instruction : Nat) (mem : List Int)
    (e : ExecError) (h : execStep index instruction mem = .error e) :
    (∀ a, e = .invalidLoadAddress a →
      a = mem.getD ((instruction >>> 16) &&& 0xFF) 0 + ((instruction &&& 0xFFFF : Nat) : Int) ∧
      (a < 0 ∨ (mem.length : Int) ≤ a) ∧
      e.message = "LOAD_MEMORY failed: Invalid address " ++ toString a ++ ".") ∧
    (∀ a, e = .invalidStoreAddress a →
      a = instruction &&& 0xFFFF ∧
      mem.length ≤ a ∧
      e.message = "STORE_TO_MEMORY failed: Invalid address " ++ toString a ++ ".") ∧
    (∀ op i, e = .unknownOpcode op i →
      i = index ∧ op = (instruction >>> 24) &&& 0xFF ∧
      e.message = "Unknown opcode " ++ toString op ++ " at index " ++ toString i ++ ".") := by
  simp only [execStep] at h
  split_ifs at h with h1 h2 h3 h4
  all_goals cases h
  all_goals refine ⟨fun a ha => ?_, fun a ha => ?_, fun op i hoi => ?_⟩
  all_goals first
    | (obtain rfl : a = mem.getD ((instruction >>> 16) &&& 0xFF) 0 +
          ((instruction &&& 0xFFFF : Nat) : Int) :=
         (ExecError.invalidLoadAddress.inj ha).symm
       exact ⟨rfl, by assumption, rfl⟩)
    | (obtain rfl : a = instruction &&& 0xFFFF :=
         (ExecError.invalidStoreAddress.inj ha).symm
       refine ⟨rfl, by omega, rfl⟩)
    | (obtain ⟨rfl, rfl⟩ : op = (instruction >>> 24) &&& 0xFF ∧ i = index := by
         have hx := ExecError.unknownOpcode.inj hoi
         exact ⟨hx.1.symm, hx.2.symm⟩
       exact ⟨rfl, rfl, rfl⟩)
    | cases ha
    | cases hoi

/-- Witness for the amended C8: `LOAD_MEMORY 0 300` on the all-zero memory
faults with computed address 300. -/
theorem C8_invalid_address_witness :
    (∀ a, ExecError.invalidLoadAddress 300 = .invalidLoadAddress a →
      a = (List.replicate 256 (0 : Int)).getD (((0x9000012C : Nat) >>> 16) &&& 0xFF) 0 +
        (((0x9000012C : Nat) &&& 0xFFFF : Nat) : Int) ∧
      (a < 0 ∨ ((List.replicate 256 (0 : Int)).length : Int) ≤ a) ∧
      (ExecError.invalidLoadAddress 300).message =
        "LOAD_MEMORY failed: Invalid address " ++ toString a ++ ".") ∧
    (∀ a, ExecError.invalidLoadAddress 300 = .invalidStoreAddress a →
      a = (0x9000012C : Nat) &&& 0xFFFF ∧
      (List.replicate 256 (0 : Int)).length ≤ a ∧
      (ExecError.invalidLoadAddress 300).message =
        "STORE_TO_MEMORY failed: Invalid address " ++ toString a ++ ".") ∧
    (∀ op i, ExecError.invalidLoadAddress 300 = .unknownOpcode op i →
      i = 1 ∧ op = ((0x9000012C : Nat) >>> 24) &&& 0xFF ∧
      (ExecError.invalidLoadAddress 300).message =
        "Unknown opcode " ++ toString op ++ " at index " ++ toString i ++ ".") :=
  C8_invalid_address 1 0x9000012C (List.replicate 256 0)
    (.invalidLoadAddress 300) (by decide)

/-! ### Claim C9 -/

/-- Claim C9: a successfully executed instruction modifies at most one
memory cell and leaves every other cell unchanged: `LOAD_CONSTANT`,
`LOAD_MEMORY` and `SHIFT_LEFT` write only the cell indexed by the register
field, `STORE_TO_MEMORY` writes only the cell indexed by its operand
(`writeTarget`), and the memory keeps its length. -/
theorem C9_frame (index instruction : Nat) (mem mem' : List Int)
    (entry : String)
    (h : execStep index instruction mem = .ok (mem', entry)) :
    mem'.length = mem.length ∧
    ∀ i, i ≠ writeTarget instruction → mem'.getD i 0 = mem.getD i 0 := by
  obtain ⟨v, rfl⟩ := execStep_ok_set index instruction mem mem' entry h
  exact ⟨by simp, fun i hi =>
    getD_set_ne mem _ i _ fun hx => hi hx.symm⟩

/-- Witness for C9: `LOAD_CONSTANT 0 5` on the all-zero memory. -/
theorem C9_frame_witness :
    ((List.replicate 256 (0 : Int)).set 0 5).length = (List.replicate 256 (0 : Int)).length ∧
    ∀ i, i ≠ writeTarget 0xA4000005 →
      ((List.replicate 256 (0 : Int)).set 0 5).getD i 0 =
        (List.replicate 256 (0 : Int)).getD i 0 :=
  C9_frame 0 0xA4000005 (List.replicate 256 0) ((List.replicate 256 (0 : Int)).set 0 5)
    "[0] LOAD_CONSTANT: Loaded 5 into register 0." (by decide)

/-! ### Claim C10 -/

/-- Claim C10: starting from the all-zero 256-cell memory, the memory state
after running any instruction sequence — including the state a fault leaves
behind, which covers every prefix of every sequence — has 256 cells, each a
nonnegative integer strictly below `2^32`. -/
theorem C10_cells_bounded (machineCode : List Nat) (i : Nat) :
    (execute machineCode).memory.length = 256 ∧
    0 ≤ (execute machineCode).memory.getD i 0 ∧
    (execute machineCode).memory.getD i 0 < 4294967296 := by
  have h := execLoop_memOk machineCode 0 (List.replicate 256 0) [] memOk_init
  exact ⟨h.1, (h.2 i).1, (h.2 i).2⟩

end VM
